import Mathlib

/-!
Shallow embedding of the Position Analysis & Game Ingestion Engine of the
`ctai` repository (backend/src/chess/engine.service.ts and chess.service.ts).

The chess rules library (chess.js) is an external collaborator; it is
modelled as an abstract structure `ChessLib` of total/optional observation
functions over FEN strings, and the services are embedded as pure functions
parameterised by that structure together with explicit oracles for the
effectful inputs (environment variables, process/network outcomes, the
cache file, the clock).  A `none`/`Except.error` value of an oracle stands
for the corresponding JavaScript exception or rejection.
-/

namespace Ctai

/-! ## Chess library abstraction (chess.js) -/

/-- chess.js piece colour, `'w' | 'b'`. -/
inductive PieceColor
  | w
  | b
deriving DecidableEq, Repr

/-- chess.js piece type, `'p' | 'n' | 'b' | 'r' | 'q' | 'k'`. -/
inductive PieceType
  | p
  | n
  | b
  | r
  | q
  | k
deriving DecidableEq, Repr

/-- One occupied entry of `chess.board()`. -/
structure Piece where
  ptype : PieceType
  color : PieceColor
deriving DecidableEq, Repr

/-- `chess.board()`: an 8x8 grid of optional pieces (sizes are irrelevant to
the embedded code, which just folds over all cells). -/
abbrev Board := List (List (Option Piece))

/-- A chess.js move object: the fields the embedded code reads
(`m.from`, `m.to`, `m.promotion`), also used as the argument shape of
`chess.move({from, to, promotion})`. -/
structure VMove where
  «from» : String
  «to» : String
  promotion : Option String
deriving DecidableEq, Repr

/-- Result of `chess.loadPgn` followed by `chess.history({verbose: true})`
and `chess.getHeaders()`: the verbose move list and the `FEN` header when a
usable one is present (`none` also covers `getHeaders` being unavailable). -/
structure PgnGame where
  history : List VMove
  fenHeader : Option String
deriving DecidableEq, Repr

/-- Abstract interface to chess.js.  Positions are represented by their FEN
strings; every field is one observation the services make of the library.
`move` returning `none` models both a thrown `Invalid move` error and a
`null` return. -/
structure ChessLib where
  /-- `new Chess(fenOpt).fen()`: load an optional FEN (default start when
  absent) and print the canonical FEN. -/
  canon : Option String → String
  /-- `new Chess(fen).moves({verbose: true})`. -/
  moves : String → List VMove
  /-- The board of the position reached from `fen` by a legal generated
  move: `chess.move(m); chess.board()` (before `chess.undo()`). -/
  boardAfter : String → VMove → Board
  /-- `new Chess(fen).turn()`. -/
  turn : String → PieceColor
  /-- `chess.move({from, to, promotion})` on the position `fen`, returning
  the resulting `chess.fen()`; `none` when the move is rejected. -/
  move : String → VMove → Option String
  /-- `chess.isGameOver()` on the position `fen`. -/
  isGameOver : String → Bool
  /-- `chess.loadPgn(pgn)` plus the header/history observations; `none`
  when `loadPgn` throws on invalid PGN. -/
  loadPgn : String → Option PgnGame

/-! ## engine.service.ts -/

/-- The `source` tag of an `EngineAnalysis`. -/
inductive Source
  | «local»
  | cloud
  | fallback
deriving DecidableEq, Repr

/-- `EngineAnalysis` (engine.service.ts); `source` is optional in the
TypeScript interface, hence `Option Source` here. `evaluation` is
`number | null`. -/
structure EngineAnalysis where
  bestMove : String
  evaluation : Option Int
  depth : Int
  pv : List String
  source : Option Source
deriving DecidableEq, Repr

/-- The value `runLocalUciEngine` resolves with (no `source` field). -/
structure LocalResult where
  bestMove : String
  evaluation : Option Int
  depth : Int
  pv : List String
deriving DecidableEq, Repr

/-- One entry of the cloud payload `data.pvs`; `moves = ""` also stands for
an absent/falsy `moves` field. -/
structure CloudPv where
  moves : String
  cp : Option Int
  mate : Option Int
  depth : Option Int
deriving DecidableEq, Repr

/-- The cloud HTTP response: status plus `data?.pvs ?? []`. -/
structure CloudResponse where
  status : Nat
  pvs : List CloudPv
deriving DecidableEq, Repr

/-- Effect oracles of `EngineService.analyzePosition`: configuration
environment variables and the outcomes of the two fallible tiers.
`localOutcome` is the settlement of `runLocalUciEngine` (spawn error,
timeout, or a resolved result); `cloudOutcome` the settlement of the
`axios.get` call. -/
structure EngineEnv where
  enginePath : Option String
  localOutcome : Except String LocalResult
  engineApiUrl : Option String
  cloudOutcome : Except String CloudResponse
  lib : ChessLib

/-- Piece values of `evaluateMaterial` (engine.service.ts). -/
def pieceValue : PieceType → Int
  | .p => 100
  | .n => 320
  | .b => 330
  | .r => 500
  | .q => 900
  | .k => 0

/-- `evaluateMaterial(chess)` (engine.service.ts): signed sum of piece
values over the board, White minus Black. -/
def evaluateMaterial (board : Board) : Int :=
  board.foldl
    (fun score row =>
      row.foldl
        (fun score cell =>
          match cell with
          | none => score
          | some piece =>
            score + (if piece.color = PieceColor.w then pieceValue piece.ptype
                     else -pieceValue piece.ptype))
        score)
    0

/-- The UCI string built for a chosen move:
`` `${m.from}${m.to}${m.promotion ?? ''}` ``. -/
def uciOfMove (m : VMove) : String :=
  m.«from» ++ m.«to» ++ m.promotion.getD ""

/-- The adjusted score of candidate move `m` in `simpleFallback`:
material after the move, sign-adjusted for the side to move. -/
def adjScore (lib : ChessLib) (fen : String) (m : VMove) : Int :=
  let score := evaluateMaterial (lib.boardAfter fen m)
  if lib.turn fen = PieceColor.w then score else -score

/-- The `bestScore`/`bestMoveUci` loop of `simpleFallback`:
`bestScore` starts at `-Infinity` (modelled `none`) and is replaced exactly
when `adjusted > bestScore`. -/
def bestFold (score : VMove → Int) (name : VMove → String) (l : List VMove) :
    Option Int × String :=
  l.foldl
    (fun acc m =>
      match acc.1 with
      | none => (some (score m), name m)
      | some best => if best < score m then (some (score m), name m) else acc)
    (none, "")

/-- `EngineService.simpleFallback(fen, depth)`. -/
def simpleFallback (lib : ChessLib) (fen : String) (depth : Int) : EngineAnalysis :=
  let moves := lib.moves fen
  if moves.length = 0 then
    { bestMove := "", evaluation := none, depth := depth, pv := [], source := some .fallback }
  else
    let best := bestFold (adjScore lib fen) uciOfMove moves
    { bestMove := best.2, evaluation := best.1, depth := depth,
      pv := [best.2], source := some .fallback }

/-- Tiers 2 and 3 of `analyzePosition`: the cloud attempt (when
`ENGINE_API_URL` is configured) with every failure path landing in
`simpleFallback`. -/
def cloudTier (env : EngineEnv) (fen : String) (depth : Int) : EngineAnalysis :=
  match env.engineApiUrl with
  | none => simpleFallback env.lib fen depth
  | some _ =>
    match env.cloudOutcome with
    | .error _ => simpleFallback env.lib fen depth
    | .ok resp =>
      if resp.status ≠ 200 then simpleFallback env.lib fen depth
      else
        match resp.pvs.head? with
        | none => simpleFallback env.lib fen depth
        | some pv0 =>
          if pv0.moves = "" then simpleFallback env.lib fen depth
          else
            let moves := (pv0.moves.splitOn " ").filter (fun s => s ≠ "")
            let bestMove := moves.headD ""
            let evalCp : Option Int :=
              match pv0.cp with
              | some c => some c
              | none =>
                match pv0.mate with
                | some m => some (if 0 < m then 100000 else -100000)
                | none => none
            { bestMove := bestMove, evaluation := evalCp,
              depth := pv0.depth.getD depth, pv := moves, source := some .cloud }

/-- `EngineService.analyzePosition(fen, options)`. -/
def analyzePosition (env : EngineEnv) (fen : String) (optDepth : Option Int) :
    EngineAnalysis :=
  let depth := optDepth.getD 18
  match env.enginePath with
  | some _ =>
    match env.localOutcome with
    | .ok r =>
      { bestMove := r.bestMove, evaluation := r.evaluation, depth := r.depth,
        pv := r.pv, source := some .«local» }
    | .error _ => cloudTier env fen depth
  | none => cloudTier env fen depth

/-! ## chess.service.ts : sessions -/

/-- `Color` (chess.service.ts). -/
inductive Color
  | white
  | black
deriving DecidableEq, Repr

/-- Typed errors thrown by the service.  `internal` stands for an uncaught
exception escaping a service method (no Nest exception class). -/
inductive ServiceError
  | notFound (msg : String)
  | badRequest (msg : String)
  | internal (msg : String)
deriving DecidableEq, Repr

/-- `ChessSession` (chess.service.ts); `createdAt` is an epoch-ms
timestamp. -/
structure ChessSession where
  id : String
  userId : String
  initialFen : String
  currentFen : String
  userColor : Color
  createdAt : Int
  moveHistory : List String
deriving DecidableEq, Repr

/-- The private `sessions: Map<string, ChessSession>` field, modelled as an
association list in insertion order (a `Map` keeps insertion order and
`set` replaces an existing binding in place). -/
abbrev Registry := List (String × ChessSession)

/-- `sessions.get(k)`. -/
def mapGet (m : Registry) (k : String) : Option ChessSession :=
  (m.find? (fun p => p.1 = k)).map (fun p => p.2)

/-- `sessions.set(k, v)`: replace the binding when present, else append. -/
def mapSet (m : Registry) (k : String) (v : ChessSession) : Registry :=
  if m.any (fun p => p.1 = k) then
    m.map (fun p => if p.1 = k then (k, v) else p)
  else m ++ [(k, v)]

/-- `sessions.size` (bindings are only ever created through `mapSet` with a
fresh key, so the list length matches the Map size). -/
def mapSize (m : Registry) : Nat := m.length

/-- Decomposition of `moveUci` in `userMove`:
`slice(0, 2)`, `slice(2, 4)`, and character 4 when the length is 5. -/
def parseUci (moveUci : String) : VMove :=
  { «from» := ((moveUci.toList.take 2).asString)
    «to» := (((moveUci.toList.drop 2).take 2).asString)
    promotion :=
      if moveUci.length = 5 then some (((moveUci.toList.drop 4).take 1).asString)
      else none }

/-- Effect oracles of the session methods: the rules library, the engine
(`engineService.analyzePosition(fen, {depth: 14, thinkTimeSeconds})`,
a function of the position being analysed) and the explanation generator
(`aiExplanationService.explainMove`, which never rejects). -/
structure SessionEnv where
  lib : ChessLib
  analyze : String → EngineAnalysis
  explain : String → String → EngineAnalysis → String

/-- `ChessService.createSession(userId, initialFen?, userColor)`;
`now` is the `new Date()` clock reading. -/
def createSession (env : SessionEnv) (reg : Registry) (userId : String)
    (initialFen : Option String) (userColor : Color) (now : Int) :
    Registry × ChessSession :=
  let fen := env.lib.canon initialFen
  let session : ChessSession :=
    { id := toString (mapSize reg + 1), userId := userId, initialFen := fen,
      currentFen := fen, userColor := userColor, createdAt := now,
      moveHistory := [] }
  (mapSet reg session.id session, session)

/-- `ChessService.getSession(id)`. -/
def getSession (reg : Registry) (id : String) : Except ServiceError ChessSession :=
  match mapGet reg id with
  | none => .error (.notFound "Session not found")
  | some s => .ok s

/-- The session state written by `resetSession`:
`currentFen = new Chess(initialFen).fen()`, cleared history. -/
def resetOf (env : SessionEnv) (s : ChessSession) : ChessSession :=
  { s with currentFen := env.lib.canon (some s.initialFen), moveHistory := [] }

/-- `ChessService.resetSession(id)`: replay to the initial position and
clear the history (the session object in the map is mutated in place,
modelled by writing the updated session back). -/
def resetSession (env : SessionEnv) (reg : Registry) (id : String) :
    Registry × Except ServiceError ChessSession :=
  match getSession reg id with
  | .error e => (reg, .error e)
  | .ok session => (mapSet reg id (resetOf env session), .ok (resetOf env session))

/-- The `userColor` flip performed by `switchSide`. -/
def switched (s : ChessSession) : ChessSession :=
  { s with
      userColor := if s.userColor = Color.white then Color.black
                   else Color.white }

/-- `ChessService.switchSide(id)`: reset, then flip `userColor`. -/
def switchSide (env : SessionEnv) (reg : Registry) (id : String) :
    Registry × Except ServiceError ChessSession :=
  match resetSession env reg id with
  | (reg1, .error e) => (reg1, .error e)
  | (reg1, .ok session) => (mapSet reg1 id (switched session), .ok (switched session))

/-- The value returned by a successful `userMove`. -/
structure MoveOutput where
  session : ChessSession
  engineMove : Option String
  analysis : Option EngineAnalysis
  explanation : Option String
deriving DecidableEq, Repr

/-- The `session.moveHistory.push(token); session.currentFen = chess.fen()`
mutation pair of `userMove`, applied once for the user move and once for an
accepted engine reply. -/
def pushMove (s : ChessSession) (token fen' : String) : ChessSession :=
  { s with moveHistory := s.moveHistory ++ [token], currentFen := fen' }

/-- `ChessService.userMove(id, moveUci, thinkTimeSeconds?)`.

The first component is the session map after the call (mutations performed
before a thrown exception persist, as they do on the in-place mutated
`Map`).  The user move is tried inside `try/catch` and converted to a
`badRequest`; the engine reply `chess.move` call is *not* wrapped, so a
rejected engine move becomes an uncaught `internal` error (chess.js v1
`move` throws on invalid moves). -/
def userMove (env : SessionEnv) (reg : Registry) (id : String) (moveUci : String) :
    Registry × Except ServiceError MoveOutput :=
  match getSession reg id with
  | .error e => (reg, .error e)
  | .ok session =>
    match env.lib.move session.currentFen (parseUci moveUci) with
    | none => (reg, .error (.badRequest ("Illegal move: " ++ moveUci)))
    | some fen1 =>
      if (if env.lib.turn fen1 = PieceColor.w then Color.white else Color.black)
           ≠ session.userColor
         ∧ env.lib.isGameOver fen1 = false then
        if (env.analyze fen1).bestMove ≠ "" then
          match env.lib.move fen1 (parseUci (env.analyze fen1).bestMove) with
          | none =>
            (mapSet reg id (pushMove session moveUci fen1),
             .error (.internal ("Invalid move: " ++ (env.analyze fen1).bestMove)))
          | some fen2 =>
            (mapSet (mapSet reg id (pushMove session moveUci fen1)) id
               (pushMove (pushMove session moveUci fen1)
                 (env.analyze fen1).bestMove fen2),
             .ok { session := pushMove (pushMove session moveUci fen1)
                     (env.analyze fen1).bestMove fen2,
                   engineMove := some (env.analyze fen1).bestMove,
                   analysis := some (env.analyze fen1),
                   explanation := some (env.explain session.initialFen fen2
                     (env.analyze fen1)) })
        else
          (mapSet reg id (pushMove session moveUci fen1),
           .ok { session := pushMove session moveUci fen1, engineMove := none,
                 analysis := some (env.analyze fen1), explanation := none })
      else
        (mapSet reg id (pushMove session moveUci fen1),
         .ok { session := pushMove session moveUci fen1, engineMove := none,
               analysis := none, explanation := none })

/-! ## chess.service.ts : PGN replay -/

/-- The replay loop of `buildFenSequenceFromPgn`: the FEN pushed after each
ply, or `none` when `replay.move(move)` throws. -/
def goReplay (lib : ChessLib) : String → List VMove → Option (List String)
  | _, [] => some []
  | fen, m :: ms =>
    match lib.move fen m with
    | none => none
    | some fen' => (goReplay lib fen' ms).map (fun rest => fen' :: rest)

/-- The starting position used by `buildFenSequenceFromPgn`: the truthy
`FEN` header when present, otherwise the default initial position. -/
def pgnStart (lib : ChessLib) (g : PgnGame) : String :=
  lib.canon
    (match g.fenHeader with
     | some f => if f = "" then none else some f
     | none => none)

/-- `ChessService.buildFenSequenceFromPgn(pgn)`: any thrown error (parse
failure or replay failure) yields `[]`. -/
def buildFenSequenceFromPgn (lib : ChessLib) (pgn : String) : List String :=
  match lib.loadPgn pgn with
  | none => []
  | some g =>
    let start := pgnStart lib g
    match goReplay lib start g.history with
    | none => []
    | some fens => start :: fens

/-! ## chess.service.ts : game ingestion -/

/-- `GameSource`. -/
inductive GameSource
  | lichess
  | chesscom
deriving DecidableEq, Repr

/-- `TrainingGame`; `endTime` is the epoch-ms value of the ISO timestamp
(every comparison in the source goes through `new Date(·).getTime()`). -/
structure TrainingGame where
  id : String
  source : GameSource
  url : String
  white : String
  black : String
  result : String
  endTime : Int
  fens : List String
deriving DecidableEq, Repr

/-- The slice of `User` that `getRecentGamesForUser` reads; the optional
usernames may hold `""`, which the truthiness checks treat as absent. -/
structure User where
  lichessUsername : Option String
  chessComUsername : Option String
deriving DecidableEq, Repr

/-- `Math.max(1, Math.min(50, Number.isFinite(limit) ? limit : 15))`;
a non-finite JS `limit` is modelled as `none`. -/
def safeLimitOf (limit : Option Int) : Int :=
  max 1 (min 50 (limit.getD 15))

/-- The `p.catch(() => [])` recovery applied to each provider fetch. -/
def recover (r : Except String (List TrainingGame)) : List TrainingGame :=
  match r with
  | .ok l => l
  | .error _ => []

/-- Whether a service result is a success (`true`) rather than a thrown
typed error. -/
def isOkE (r : Except ServiceError (List TrainingGame)) : Bool :=
  match r with
  | .ok _ => true
  | .error _ => false

/-- The sort relation of `merged.sort((a, b) => endTime(b) - endTime(a))`:
descending by `endTime` (JS `Array.prototype.sort` is stable, as is
`List.insertionSort`). -/
def gameDesc (a b : TrainingGame) : Prop := b.endTime ≤ a.endTime

instance : DecidableRel gameDesc := fun a b =>
  inferInstanceAs (Decidable (b.endTime ≤ a.endTime))

instance : IsTotal TrainingGame gameDesc :=
  ⟨fun a b => le_total b.endTime a.endTime⟩

instance : IsTrans TrainingGame gameDesc :=
  ⟨fun _ _ _ h1 h2 => le_trans h2 h1⟩

/-- Effect oracles of `getRecentGamesForUser`: the user store and the
settlement of each provider fetch (`fetchLichessGames` /
`fetchChessComGames`), keyed by username and limit.  An `error` value is a
rejected fetch promise (network failure, malformed payload, rate limit). -/
structure IngestEnv where
  findUser : String → Option User
  fetchLichess : String → Int → Except String (List TrainingGame)
  fetchChessCom : String → Int → Except String (List TrainingGame)

/-- The task list built by `getRecentGamesForUser`: one fetch per linked
(truthy) provider username, lichess first. -/
def linkedTasks (env : IngestEnv) (user : User) (safeLimit : Int) :
    List (Except String (List TrainingGame)) :=
  (match user.lichessUsername with
   | some u => if u = "" then [] else [env.fetchLichess u safeLimit]
   | none => []) ++
  (match user.chessComUsername with
   | some u => if u = "" then [] else [env.fetchChessCom u safeLimit]
   | none => [])

/-- `ChessService.getRecentGamesForUser(userId, limit)`. -/
def getRecentGamesForUser (env : IngestEnv) (userId : String)
    (limit : Option Int) : Except ServiceError (List TrainingGame) :=
  match env.findUser userId with
  | none => .error (.notFound "User not found")
  | some user =>
    let safeLimit := safeLimitOf limit
    let tasks := linkedTasks env user safeLimit
    if tasks.length = 0 then .ok []
    else
      let results := tasks.map recover
      let merged := results.flatten
      let sorted := merged.insertionSort gameDesc
      .ok (sorted.take safeLimit.toNat)

/-! ## chess.service.ts : top-games cache -/

/-- `TOP_GAMES_CACHE_TTL_MS = 6 * 60 * 60 * 1000`. -/
def TOP_GAMES_CACHE_TTL_MS : Int := 6 * 60 * 60 * 1000

/-- A successfully read and shape-checked cache file:
`{cachedAt, games}` with `cachedAt` as epoch ms. -/
structure CacheEntry where
  cachedAt : Int
  games : List TrainingGame
deriving DecidableEq, Repr

/-- Effect oracles of `getTopGames`: the clock, the cache-file read
(`none` covers a missing file, unreadable file, JSON parse failure, and
the `!data?.cachedAt || !Array.isArray(data.games)` shape check) and the
results the two fetch phases would produce
(`fetchTopGamesFromBroadcast` / `fetchTopGamesFromLeaderboard`, which
handle their own errors internally and always resolve with a list). -/
structure TopEnv where
  now : Int
  cacheRead : Option CacheEntry
  broadcastGames : List TrainingGame
  leaderboardGames : List TrainingGame

/-- The observable outcome of a `getTopGames` call: the returned games, the
number of external fetch phases performed, and the payloads written to the
cache file, in order. -/
structure TopGamesTrace where
  games : List TrainingGame
  fetches : Nat
  cacheWrites : List (List TrainingGame)
deriving DecidableEq, Repr

/-- `ChessService.readTopGamesCache()`: `null` (here `none`) when the file
is unusable or the entry's age has reached the TTL. -/
def readTopGamesCache (env : TopEnv) : Option (List TrainingGame) :=
  match env.cacheRead with
  | none => none
  | some e =>
    if env.now - e.cachedAt ≥ TOP_GAMES_CACHE_TTL_MS then none else some e.games

/-- The cache-miss path of `getTopGames`: broadcast first, leaderboard
fallback, persisting whichever acceptable result was obtained. -/
def refreshTopGames (env : TopEnv) (safeLimit : Int) : TopGamesTrace :=
  let fromBroadcast := env.broadcastGames
  if (fromBroadcast.length : Int) ≥ min 10 safeLimit then
    { games := fromBroadcast.take safeLimit.toNat, fetches := 1,
      cacheWrites := [fromBroadcast] }
  else
    let fromLeaderboard := env.leaderboardGames
    if 0 < fromLeaderboard.length then
      { games := fromLeaderboard.take safeLimit.toNat, fetches := 2,
        cacheWrites := [fromLeaderboard] }
    else
      { games := fromBroadcast.take safeLimit.toNat, fetches := 2,
        cacheWrites := [] }

/-- `ChessService.getTopGames(limit)`. -/
def getTopGames (env : TopEnv) (limit : Option Int) : TopGamesTrace :=
  let safeLimit := safeLimitOf limit
  match readTopGamesCache env with
  | some cached =>
    if 0 < cached.length then
      { games := cached.take safeLimit.toNat, fetches := 0, cacheWrites := [] }
    else refreshTopGames env safeLimit
  | none => refreshTopGames env safeLimit

/-! ## Reachability model for the session invariant -/

/-- Replaying a recorded `moveHistory` from a FEN through the rules
library, exactly the way `userMove` validates and applies tokens. -/
def replay (lib : ChessLib) : String → List String → Option String
  | fen, [] => some fen
  | fen, t :: ts =>
    match lib.move fen (parseUci t) with
    | none => none
    | some fen' => replay lib fen' ts

/-- The per-session invariant: the stored `initialFen` is in canonical form
and `currentFen` is exactly the replay of `moveHistory` from `initialFen`
(so in particular every recorded token passed a legality check). -/
def SessionWF (lib : ChessLib) (s : ChessSession) : Prop :=
  lib.canon (some s.initialFen) = s.initialFen ∧
  replay lib s.initialFen s.moveHistory = some s.currentFen

/-- The registry invariant: every stored session satisfies `SessionWF`. -/
def RegistryWF (lib : ChessLib) (reg : Registry) : Prop :=
  ∀ p ∈ reg, SessionWF lib p.2

/-- One externally reachable mutation of the session registry. -/
inductive Op where
  | create (userId : String) (initialFen : Option String) (userColor : Color)
      (now : Int)
  | domove (id : String) (moveUci : String)
  | reset (id : String)
  | switch (id : String)

/-- The registry after performing one operation (errors leave the registry
as the operation left it). -/
def stepOp (env : SessionEnv) (reg : Registry) : Op → Registry
  | .create uid fen0 col now => (createSession env reg uid fen0 col now).1
  | .domove id u => (userMove env reg id u).1
  | .reset id => (resetSession env reg id).1
  | .switch id => (switchSide env reg id).1

/-- The registry reached from the empty initial map by a sequence of
operations. -/
def runOps (env : SessionEnv) (ops : List Op) : Registry :=
  ops.foldl (stepOp env) []

/-- The first-maximum selection implemented by the `simpleFallback` loop:
starting from a current best, replace it exactly when a later candidate
scores strictly higher. -/
def pickFrom (f : VMove → Int) (best : VMove) : List VMove → VMove
  | [] => best
  | x :: xs => pickFrom f (if f best < f x then x else best) xs

/-! ## Concrete instances used by the witnesses -/

/-- A degenerate rules library: one canonical position, no legal moves. -/
def libTriv : ChessLib where
  canon := fun _ => "INIT"
  moves := fun _ => []
  boardAfter := fun _ _ => []
  turn := fun _ => PieceColor.w
  move := fun _ _ => none
  isGameOver := fun _ => false
  loadPgn := fun _ => none

/-- Engine environment whose local and cloud tiers both fail. -/
def engineEnvW1 : EngineEnv where
  enginePath := some "/opt/stockfish"
  localOutcome := .error "spawn ENOENT"
  engineApiUrl := some "https://cloud.example/eval"
  cloudOutcome := .error "timeout of 5000ms exceeded"
  lib := libTriv

/-- Engine environment whose cloud tier answers with HTTP 503. -/
def engineEnvW2 : EngineEnv where
  enginePath := none
  localOutcome := .error "unused"
  engineApiUrl := some "https://cloud.example/eval"
  cloudOutcome := .ok { status := 503, pvs := [] }
  lib := libTriv

/-- Two candidate moves for the fallback-heuristic witness. -/
def mvA : VMove := { «from» := "a2", «to» := "a3", promotion := none }

/-- Second candidate move for the fallback-heuristic witness. -/
def mvB : VMove := { «from» := "d2", «to» := "d4", promotion := none }

/-- A library with two legal moves where the second wins a pawn. -/
def libC2 : ChessLib where
  canon := fun _ => "INIT"
  moves := fun _ => [mvA, mvB]
  boardAfter := fun _ m =>
    if m = mvB then [[some { ptype := PieceType.p, color := PieceColor.w }]]
    else []
  turn := fun _ => PieceColor.w
  move := fun _ _ => none
  isGameOver := fun _ => false
  loadPgn := fun _ => none

/-- The engine reply used by the session witnesses. -/
def analysisE5 : EngineAnalysis :=
  { bestMove := "e7e5", evaluation := some 0, depth := 14, pv := ["e7e5"],
    source := some Source.fallback }

/-- A library where every move is legal and FENs record the played moves. -/
def libPlay : ChessLib where
  canon := fun _ => "INIT"
  moves := fun _ => []
  boardAfter := fun _ _ => []
  turn := fun _ => PieceColor.b
  move := fun fen m => some (fen ++ ";" ++ uciOfMove m)
  isGameOver := fun _ => false
  loadPgn := fun _ => none

/-- Session environment over `libPlay` whose engine always answers
`e7e5`. -/
def sessionEnvPlay : SessionEnv where
  lib := libPlay
  analyze := fun _ => analysisE5
  explain := fun _ _ _ => "explanation"

/-- Session environment over the move-rejecting `libTriv`. -/
def sessionEnvTriv : SessionEnv where
  lib := libTriv
  analyze := fun _ => analysisE5
  explain := fun _ _ _ => ""

/-- A stored session at the canonical initial position. -/
def sessionW : ChessSession :=
  { id := "1", userId := "u", initialFen := "INIT", currentFen := "INIT",
    userColor := Color.white, createdAt := 0, moveHistory := [] }

/-- A registry holding exactly `sessionW`. -/
def regW : Registry := [("1", sessionW)]

/-- The operation trace used by the invariant witness. -/
def opsW : List Op :=
  [Op.create "u" none Color.white 0, Op.domove "1" "e2e4"]

/-- The verbose move returned by the PGN-replay witness library. -/
def mvRep : VMove := { «from» := "e2", «to» := "e4", promotion := none }

/-- A library that parses exactly the transcript `"1. e4"` into one move. -/
def libPgn : ChessLib where
  canon := fun o => match o with | some f => f | none => "START"
  moves := fun _ => []
  boardAfter := fun _ _ => []
  turn := fun _ => PieceColor.w
  move := fun fen m => some (fen ++ ";" ++ uciOfMove m)
  isGameOver := fun _ => false
  loadPgn := fun p =>
    if p = "1. e4" then some { history := [mvRep], fenHeader := none } else none

/-- A cached training game. -/
def gameW : TrainingGame :=
  { id := "g1", source := GameSource.lichess, url := "https://lichess.org/g1",
    white := "W", black := "B", result := "1-0", endTime := 100, fens := ["f"] }

/-- Top-games environment with a fresh cache entry whose games list is
empty. -/
def topEnvCex : TopEnv :=
  { now := 0, cacheRead := some { cachedAt := 0, games := [] },
    broadcastGames := [], leaderboardGames := [] }

/-- Top-games environment with a fresh, non-empty cache entry. -/
def topEnvFresh : TopEnv :=
  { now := 0, cacheRead := some { cachedAt := 0, games := [gameW] },
    broadcastGames := [], leaderboardGames := [] }

/-- An older provider game (ends at time 50). -/
def gameOld : TrainingGame :=
  { id := "li1", source := GameSource.lichess, url := "https://lichess.org/li1",
    white := "alice", black := "bob", result := "0-1", endTime := 50,
    fens := ["f0"] }

/-- A newer provider game (ends at time 200). -/
def gameNew : TrainingGame :=
  { id := "cc1", source := GameSource.chesscom,
    url := "https://www.chess.com/game/cc1", white := "alice2", black := "carol",
    result := "1-0", endTime := 200, fens := ["f0", "f1"] }

/-- A user with both provider accounts linked. -/
def userW : User :=
  { lichessUsername := some "alice", chessComUsername := some "alice2" }

/-- A user with no linked provider accounts. -/
def userNone : User := { lichessUsername := none, chessComUsername := none }

/-- Ingestion environment where both provider fetches succeed. -/
def ingestEnvW : IngestEnv where
  findUser := fun uid => if uid = "u1" then some userW else none
  fetchLichess := fun _ _ => .ok [gameOld]
  fetchChessCom := fun _ _ => .ok [gameNew]

/-- Ingestion environment where the lichess fetch rejects. -/
def ingestEnvErr : IngestEnv where
  findUser := fun uid => if uid = "u1" then some userW else none
  fetchLichess := fun _ _ => .error "network down"
  fetchChessCom := fun _ _ => .ok [gameNew]

/-- Ingestion environment whose only user has no linked accounts. -/
def ingestEnvNoAcc : IngestEnv where
  findUser := fun _ => some userNone
  fetchLichess := fun _ _ => .error "unused"
  fetchChessCom := fun _ _ => .error "unused"

/-- The session after the witness user move `e2e4` over `libPlay`. -/
def sW1 : ChessSession :=
  { sessionW with moveHistory := ["e2e4"], currentFen := "INIT;e2e4" }

/-- The session after the witness engine reply `e7e5` over `libPlay`. -/
def sW2 : ChessSession :=
  { sessionW with moveHistory := ["e2e4", "e7e5"],
                  currentFen := "INIT;e2e4;e7e5" }

/-- The output of the witness `userMove` call over `libPlay`. -/
def outW : MoveOutput :=
  { session := sW2, engineMove := some "e7e5", analysis := some analysisE5,
    explanation := some "explanation" }

/-- The registry after the witness `userMove` call over `libPlay`. -/
def regW2 : Registry := mapSet (mapSet regW "1" sW1) "1" sW2

/-- A library that accepts exactly one move from `"INIT"` and rejects
everything afterwards (so the engine reply is rejected). -/
def libHalf : ChessLib where
  canon := fun _ => "INIT"
  moves := fun _ => []
  boardAfter := fun _ _ => []
  turn := fun _ => PieceColor.b
  move := fun fen _ => if fen = "INIT" then some "MID" else none
  isGameOver := fun _ => false
  loadPgn := fun _ => none

/-- Session environment over `libHalf`. -/
def sessionEnvHalf : SessionEnv where
  lib := libHalf
  analyze := fun _ => analysisE5
  explain := fun _ _ _ => ""

/-- The session after the user move in the rejected-engine-reply witness. -/
def sHalf1 : ChessSession :=
  { sessionW with moveHistory := ["e2e4"], currentFen := "MID" }

/-! ## Helper lemmas -/

theorem simpleFallback_source (lib : ChessLib) (fen : String) (depth : Int) :
    (simpleFallback lib fen depth).source = some Source.fallback := by
  simp only [simpleFallback]
  split <;> rfl

theorem cloudTier_source_isSome (env : EngineEnv) (fen : String) (depth : Int) :
    (cloudTier env fen depth).source.isSome = true := by
  have h : ∀ lib f d, (simpleFallback lib f d).source.isSome = true := by
    intro lib f d
    rw [simpleFallback_source]
    rfl
  unfold cloudTier
  split
  · exact h _ _ _
  · split
    · exact h _ _ _
    · split
      · exact h _ _ _
      · split
        · exact h _ _ _
        · split
          · exact h _ _ _
          · rfl

theorem bestFold_go (f : VMove → Int) (g : VMove → String) (l : List VMove) :
    ∀ b : VMove,
      List.foldl
        (fun acc m =>
          match acc.1 with
          | none => (some (f m), g m)
          | some best => if best < f m then (some (f m), g m) else acc)
        (some (f b), g b) l
      = (some (f (pickFrom f b l)), g (pickFrom f b l)) := by
  induction l with
  | nil => intro b; rfl
  | cons y ys ih =>
    intro b
    show List.foldl _
        (if f b < f y then (some (f y), g y) else (some (f b), g b)) ys = _
    by_cases h : f b < f y
    · rw [if_pos h, pickFrom, if_pos h]
      exact ih y
    · rw [if_neg h, pickFrom, if_neg h]
      exact ih b

theorem bestFold_eq (f : VMove → Int) (g : VMove → String) (x : VMove)
    (xs : List VMove) :
    bestFold f g (x :: xs) =
      (some (f (pickFrom f x xs)), g (pickFrom f x xs)) := by
  unfold bestFold
  show List.foldl _ (some (f x), g x) xs = _
  exact bestFold_go f g xs x

theorem pickFrom_spec (f : VMove → Int) (l : List VMove) :
    ∀ b : VMove,
      (∃ l₁ l₂, b :: l = l₁ ++ pickFrom f b l :: l₂ ∧
         ∀ y ∈ l₁, f y < f (pickFrom f b l)) ∧
      (∀ y ∈ b :: l, f y ≤ f (pickFrom f b l)) := by
  induction l with
  | nil =>
    intro b
    refine ⟨⟨[], [], rfl, by simp⟩, ?_⟩
    intro y hy
    rw [List.mem_singleton] at hy
    subst hy
    exact le_refl _
  | cons x xs ih =>
    intro b
    by_cases h : f b < f x
    · rw [pickFrom, if_pos h]
      obtain ⟨⟨l₁, l₂, hdec, hlt⟩, hmax⟩ := ih x
      refine ⟨⟨b :: l₁, l₂, ?_, ?_⟩, ?_⟩
      · rw [List.cons_append, ← hdec]
      · intro y hy
        rcases List.mem_cons.1 hy with rfl | hy
        · exact lt_of_lt_of_le h (hmax x (List.mem_cons_self x xs))
        · exact hlt y hy
      · intro y hy
        rcases List.mem_cons.1 hy with rfl | hy
        · exact le_of_lt (lt_of_lt_of_le h (hmax x (List.mem_cons_self x xs)))
        · exact hmax y hy
    · rw [pickFrom, if_neg h]
      obtain ⟨⟨l₁, l₂, hdec, hlt⟩, hmax⟩ := ih b
      have hxb : f x ≤ f b := le_of_not_lt h
      refine ⟨?_, ?_⟩
      · cases l₁ with
        | nil =>
          rw [List.nil_append] at hdec
          have hb := List.cons_eq_cons.mp hdec
          refine ⟨[], x :: xs, ?_, by simp⟩
          rw [List.nil_append, ← hb.1]
        | cons z t =>
          rw [List.cons_append] at hdec
          have hb := List.cons_eq_cons.mp hdec
          refine ⟨b :: x :: t, l₂, ?_, ?_⟩
          · rw [List.cons_append, List.cons_append, ← hb.2]
          · intro y hy
            have hblt : f b < f (pickFrom f b xs) := by
              refine hlt b ?_
              rw [hb.1]
              exact List.mem_cons_self z t
            rcases List.mem_cons.1 hy with rfl | hy
            · exact hblt
            · rcases List.mem_cons.1 hy with rfl | hy
              · exact lt_of_le_of_lt hxb hblt
              · exact hlt y (List.mem_cons_of_mem z hy)
      · intro y hy
        rcases List.mem_cons.1 hy with rfl | hy
        · exact hmax y (List.mem_cons_self y xs)
        · rcases List.mem_cons.1 hy with rfl | hy
          · exact le_trans hxb (hmax b (List.mem_cons_self b xs))
          · exact hmax y (List.mem_cons_of_mem b hy)

theorem mapGet_mem (m : Registry) (k : String) (s : ChessSession)
    (h : mapGet m k = some s) : ∃ p ∈ m, p.2 = s := by
  unfold mapGet at h
  cases hf : m.find? (fun p => p.1 = k) with
  | none => rw [hf] at h; cases h
  | some p =>
    rw [hf] at h
    simp only [Option.map_some', Option.some.injEq] at h
    exact ⟨p, List.mem_of_find?_eq_some hf, h⟩

theorem mem_mapSet (m : Registry) (k : String) (v : ChessSession)
    (p : String × ChessSession) (h : p ∈ mapSet m k v) : p.2 = v ∨ p ∈ m := by
  unfold mapSet at h
  split at h
  · obtain ⟨q, hq, hfq⟩ := List.mem_map.1 h
    by_cases hk : q.1 = k
    · left; rw [if_pos hk] at hfq; rw [← hfq]
    · right; rw [if_neg hk] at hfq; rw [← hfq]; exact hq
  · rcases List.mem_append.1 h with h | h
    · right; exact h
    · left; rw [List.mem_singleton] at h; rw [h]

theorem find?_map_set (m : Registry) (k : String) (v : ChessSession)
    (h : m.any (fun p => p.1 = k) = true) :
    List.find? (fun p => p.1 = k)
        (m.map (fun p => if p.1 = k then (k, v) else p)) = some (k, v) := by
  induction m with
  | nil => simp at h
  | cons p m ih =>
    rw [List.map_cons]
    by_cases hk : p.1 = k
    · rw [if_pos hk]
      exact List.find?_cons_of_pos _ (by simp)
    · rw [if_neg hk]
      rw [List.find?_cons_of_neg _ (by simp [hk])]
      apply ih
      rw [List.any_cons] at h
      simpa [hk] using h

theorem find?_fresh_append (m : Registry) (k : String) (v : ChessSession)
    (h : m.any (fun p => p.1 = k) = false) :
    List.find? (fun p => p.1 = k) (m ++ [(k, v)]) = some (k, v) := by
  induction m with
  | nil => simp [List.find?]
  | cons p m ih =>
    rw [List.any_cons, Bool.or_eq_false_iff] at h
    rw [List.cons_append, List.find?_cons_of_neg _ (by simpa using h.1)]
    exact ih h.2

theorem mapGet_mapSet_self (m : Registry) (k : String) (v : ChessSession) :
    mapGet (mapSet m k v) k = some v := by
  unfold mapGet mapSet
  split
  case isTrue hany => rw [find?_map_set m k v hany]; rfl
  case isFalse hany =>
    rw [find?_fresh_append m k v (by rwa [Bool.not_eq_true] at hany)]
    rfl

theorem replay_snoc (lib : ChessLib) (xs : List String) (t : String) :
    ∀ fen, replay lib fen (xs ++ [t]) =
      (replay lib fen xs).bind (fun c => lib.move c (parseUci t)) := by
  induction xs with
  | nil =>
    intro fen
    show replay lib fen [t] = lib.move fen (parseUci t)
    unfold replay
    cases lib.move fen (parseUci t) <;> rfl
  | cons x xs ih =>
    intro fen
    show replay lib fen (x :: (xs ++ [t])) = _
    unfold replay
    cases lib.move fen (parseUci x) <;> simp [ih]

theorem sessionWF_snoc (lib : ChessLib) (s : ChessSession) (t fen1 : String)
    (hwf : SessionWF lib s)
    (hm : lib.move s.currentFen (parseUci t) = some fen1) :
    SessionWF lib (pushMove s t fen1) := by
  refine ⟨hwf.1, ?_⟩
  show replay lib s.initialFen (s.moveHistory ++ [t]) = some fen1
  rw [replay_snoc, hwf.2]
  simpa using hm

theorem registryWF_mapSet (lib : ChessLib) (m : Registry) (k : String)
    (v : ChessSession) (hm : RegistryWF lib m) (hv : SessionWF lib v) :
    RegistryWF lib (mapSet m k v) := by
  intro p hp
  rcases mem_mapSet m k v p hp with h | h
  · rw [h]; exact hv
  · exact hm p h

theorem sessionWF_of_mapGet (lib : ChessLib) (m : Registry) (k : String)
    (s : ChessSession) (hm : RegistryWF lib m) (h : mapGet m k = some s) :
    SessionWF lib s := by
  obtain ⟨p, hp, hps⟩ := mapGet_mem m k s h
  rw [← hps]
  exact hm p hp

theorem getSession_ok_wf (lib : ChessLib) (reg : Registry) (id : String)
    (s : ChessSession) (hreg : RegistryWF lib reg)
    (hg : getSession reg id = .ok s) : SessionWF lib s := by
  unfold getSession at hg
  cases hmg : mapGet reg id with
  | none => rw [hmg] at hg; cases hg
  | some s2 =>
    rw [hmg] at hg
    cases hg
    exact sessionWF_of_mapGet lib reg id s hreg hmg

theorem resetOf_wf (env : SessionEnv) (s : ChessSession)
    (hswf : SessionWF env.lib s) : SessionWF env.lib (resetOf env s) := by
  refine ⟨hswf.1, ?_⟩
  show replay env.lib s.initialFen [] = some (env.lib.canon (some s.initialFen))
  rw [hswf.1]
  rfl

theorem resetSession_wf (env : SessionEnv) (reg : Registry) (id : String)
    (hreg : RegistryWF env.lib reg) :
    RegistryWF env.lib (resetSession env reg id).1 ∧
    (∀ s', (resetSession env reg id).2 = .ok s' → SessionWF env.lib s') := by
  unfold resetSession
  split
  next e heq => exact ⟨hreg, fun t h => by cases h⟩
  next s heq =>
    have hswf := getSession_ok_wf env.lib reg id s hreg heq
    have hwf' := resetOf_wf env s hswf
    refine ⟨registryWF_mapSet _ _ _ _ hreg hwf', ?_⟩
    intro s' h
    cases h
    exact hwf'

theorem userMove_wf (env : SessionEnv) (reg : Registry) (id u : String)
    (hreg : RegistryWF env.lib reg) :
    RegistryWF env.lib (userMove env reg id u).1 := by
  unfold userMove
  split
  next e heq => exact hreg
  next s heq =>
    have hswf := getSession_ok_wf env.lib reg id s hreg heq
    split
    next hm => exact hreg
    next fen1 hm =>
      have hs1 := sessionWF_snoc env.lib s u fen1 hswf hm
      have hreg1 := registryWF_mapSet env.lib reg id _ hreg hs1
      by_cases hcond : (if env.lib.turn fen1 = PieceColor.w then Color.white
          else Color.black) ≠ s.userColor ∧ env.lib.isGameOver fen1 = false
      · rw [if_pos hcond]
        by_cases hbm : (env.analyze fen1).bestMove ≠ ""
        · rw [if_pos hbm]
          split
          next hm2 => exact hreg1
          next fen2 hm2 =>
            exact registryWF_mapSet env.lib _ id _ hreg1
              (sessionWF_snoc env.lib _ _ fen2 hs1 hm2)
        · rw [if_neg hbm]
          exact hreg1
      · rw [if_neg hcond]
        exact hreg1

theorem stepOp_wf (env : SessionEnv)
    (hc : ∀ x, env.lib.canon (some (env.lib.canon x)) = env.lib.canon x)
    (reg : Registry) (op : Op) (hreg : RegistryWF env.lib reg) :
    RegistryWF env.lib (stepOp env reg op) := by
  cases op with
  | create uid fen0 col now =>
    show RegistryWF env.lib (createSession env reg uid fen0 col now).1
    unfold createSession
    exact registryWF_mapSet _ _ _ _ hreg ⟨hc fen0, rfl⟩
  | domove id u => exact userMove_wf env reg id u hreg
  | reset id => exact (resetSession_wf env reg id hreg).1
  | switch id =>
    show RegistryWF env.lib (switchSide env reg id).1
    obtain ⟨h1, h2⟩ := resetSession_wf env reg id hreg
    unfold switchSide
    split
    next reg1 e heq =>
      rw [heq] at h1
      exact h1
    next reg1 s heq =>
      rw [heq] at h1
      have hwf : SessionWF env.lib s := h2 s (by rw [heq])
      exact registryWF_mapSet _ _ _ _ h1 hwf

theorem foldl_stepOp_wf (env : SessionEnv)
    (hc : ∀ x, env.lib.canon (some (env.lib.canon x)) = env.lib.canon x)
    (ops : List Op) :
    ∀ reg, RegistryWF env.lib reg →
      RegistryWF env.lib (List.foldl (stepOp env) reg ops) := by
  induction ops with
  | nil => intro reg h; exact h
  | cons op ops ih =>
    intro reg h
    exact ih _ (stepOp_wf env hc reg op h)

/-! ## Claims -/

/-- C1: `EngineService.analyzePosition` never rejects — embedded as a total
function of the tier-outcome oracles — and always returns an analysis whose
`source` field is set (to `local`, `cloud` or `fallback`); a local-tier
error makes the call behave exactly as if no local engine were configured,
and a cloud-tier network error or non-200 response falls through to the
material fallback. -/
theorem analyzePosition_no_throw_sources (env : EngineEnv) (fen : String)
    (optDepth : Option Int) :
    (analyzePosition env fen optDepth).source.isSome = true ∧
    (∀ e, env.localOutcome = .error e →
       analyzePosition env fen optDepth =
         analyzePosition { env with enginePath := none } fen optDepth) ∧
    (∀ e, env.cloudOutcome = .error e →
       cloudTier env fen (optDepth.getD 18) =
         simpleFallback env.lib fen (optDepth.getD 18)) ∧
    (∀ resp, env.cloudOutcome = .ok resp → resp.status ≠ 200 →
       cloudTier env fen (optDepth.getD 18) =
         simpleFallback env.lib fen (optDepth.getD 18)) := by
  refine ⟨?_, ?_, ?_, ?_⟩
  · unfold analyzePosition
    split
    · split
      · rfl
      · exact cloudTier_source_isSome _ _ _
    · exact cloudTier_source_isSome _ _ _
  · intro e he
    unfold analyzePosition
    rw [he]
    cases hp : env.enginePath <;> simp only [hp] <;> rfl
  · intro e he
    unfold cloudTier
    rw [he]
    cases ha : env.engineApiUrl <;> simp only [ha]
  · intro resp hr hs
    unfold cloudTier
    rw [hr]
    cases ha : env.engineApiUrl with
    | none => rfl
    | some u => exact if_pos hs

/-- Witness for C1: with a failing local tier and a failing (or non-200)
cloud tier, the analysis still comes back, tagged by a tier. -/
theorem analyzePosition_no_throw_sources_witness :
    (analyzePosition engineEnvW1 "fen" none).source.isSome = true ∧
    analyzePosition engineEnvW1 "fen" none =
      analyzePosition { engineEnvW1 with enginePath := none } "fen" none ∧
    cloudTier engineEnvW1 "fen" 18 = simpleFallback engineEnvW1.lib "fen" 18 ∧
    cloudTier engineEnvW2 "fen" 18 = simpleFallback engineEnvW2.lib "fen" 18 := by
  obtain ⟨h1, h2, h3, _⟩ := analyzePosition_no_throw_sources engineEnvW1 "fen" none
  obtain ⟨_, _, _, h4⟩ := analyzePosition_no_throw_sources engineEnvW2 "fen" none
  exact ⟨h1, h2 _ rfl, h3 _ rfl, h4 { status := 503, pvs := [] } rfl (by decide)⟩

/-- C2: on a position with at least one legal move, `simpleFallback` picks
the first legal move (in `chess.moves` enumeration order) whose resulting
position maximises the side-to-move-adjusted material sum; with no legal
moves it returns an analysis with empty `bestMove`. -/
theorem simpleFallback_material_argmax (lib : ChessLib) (fen : String)
    (depth : Int) :
    (lib.moves fen = [] →
       simpleFallback lib fen depth =
         { bestMove := "", evaluation := none, depth := depth, pv := [],
           source := some Source.fallback }) ∧
    (lib.moves fen ≠ [] →
       ∃ pre m post,
         lib.moves fen = pre ++ m :: post ∧
         (simpleFallback lib fen depth).bestMove = uciOfMove m ∧
         (∀ x ∈ lib.moves fen, adjScore lib fen x ≤ adjScore lib fen m) ∧
         (∀ x ∈ pre, adjScore lib fen x < adjScore lib fen m)) := by
  constructor
  · intro h
    unfold simpleFallback
    rw [h]
    simp
  · intro h
    obtain ⟨x, xs, hx⟩ := List.exists_cons_of_ne_nil h
    have hfold := bestFold_eq (adjScore lib fen) uciOfMove x xs
    obtain ⟨⟨l₁, l₂, hdec, hlt⟩, hmax⟩ := pickFrom_spec (adjScore lib fen) xs x
    refine ⟨l₁, pickFrom (adjScore lib fen) x xs, l₂, ?_, ?_, ?_, hlt⟩
    · rw [hx, hdec]
    · unfold simpleFallback
      rw [hx]
      simp only [List.length_cons]
      rw [if_neg (by simp)]
      rw [hfold]
    · intro y hy
      rw [hx] at hy
      exact hmax y hy

/-- Witness for C2: the fallback on a two-move position picks the
pawn-winning second move, the first move being strictly worse. -/
theorem simpleFallback_material_argmax_witness :
    libC2.moves "INIT" ≠ [] ∧
    ∃ pre m post,
      libC2.moves "INIT" = pre ++ m :: post ∧
      (simpleFallback libC2 "INIT" 14).bestMove = uciOfMove m ∧
      (∀ x ∈ libC2.moves "INIT",
         adjScore libC2 "INIT" x ≤ adjScore libC2 "INIT" m) ∧
      (∀ x ∈ pre, adjScore libC2 "INIT" x < adjScore libC2 "INIT" m) :=
  ⟨by decide, (simpleFallback_material_argmax libC2 "INIT" 14).2 (by decide)⟩

/-- C3: a move token rejected by the rules library (including malformed
tokens such as `"e2e9"`) makes `userMove` fail with the bad-request
`IllegalMove` error and leaves the registry — hence the session's
`currentFen` and `moveHistory` — exactly as before the call. -/
theorem userMove_illegal_rejected (env : SessionEnv) (reg : Registry)
    (id u : String) (s : ChessSession)
    (hs : mapGet reg id = some s)
    (hrej : env.lib.move s.currentFen (parseUci u) = none) :
    userMove env reg id u =
      (reg, .error (.badRequest ("Illegal move: " ++ u))) ∧
    mapGet (userMove env reg id u).1 id = some s := by
  have hg : getSession reg id = .ok s := by unfold getSession; rw [hs]
  have h1 : userMove env reg id u =
      (reg, .error (.badRequest ("Illegal move: " ++ u))) := by
    simp only [userMove, hg, hrej]
  exact ⟨h1, by rw [h1]; exact hs⟩

/-- Witness for C3: the malformed token `"e2e9"` on a stored session is
rejected and the registry is untouched. -/
theorem userMove_illegal_rejected_witness :
    mapGet regW "1" = some sessionW ∧
    userMove sessionEnvTriv regW "1" "e2e9" =
      (regW, .error (.badRequest "Illegal move: e2e9")) ∧
    mapGet (userMove sessionEnvTriv regW "1" "e2e9").1 "1" = some sessionW := by
  have h := userMove_illegal_rejected sessionEnvTriv regW "1" "e2e9" sessionW
    rfl rfl
  exact ⟨rfl, h.1, h.2⟩

/-- C4: in every registry reachable from the empty one by any sequence of
`create` / `userMove` / `reset` / `switchSide` operations, each stored
session's `currentFen` is exactly the replay of its `moveHistory` from its
`initialFen` through the rules library — so no token was ever recorded
without an accepted legality check.  The only assumption on the library is
that re-canonicalising an already canonical FEN is the identity
(`new Chess(new Chess(x).fen()).fen() = new Chess(x).fen()`). -/
theorem currentFen_replay_invariant (env : SessionEnv)
    (hc : ∀ x, env.lib.canon (some (env.lib.canon x)) = env.lib.canon x)
    (ops : List Op) (id : String) (s : ChessSession)
    (hsess : mapGet (runOps env ops) id = some s) :
    replay env.lib s.initialFen s.moveHistory = some s.currentFen := by
  have hreg : RegistryWF env.lib (runOps env ops) :=
    foldl_stepOp_wf env hc ops [] (fun p hp => absurd hp (List.not_mem_nil p))
  exact (sessionWF_of_mapGet env.lib _ id s hreg hsess).2

/-- Witness for C4: after a create followed by a user move with an engine
reply, the stored session's two-token history replays to its
`currentFen`. -/
theorem currentFen_replay_invariant_witness :
    mapGet (runOps sessionEnvPlay opsW) "1" = some
      { id := "1", userId := "u", initialFen := "INIT",
        currentFen := "INIT;e2e4;e7e5", userColor := Color.white,
        createdAt := 0, moveHistory := ["e2e4", "e7e5"] } ∧
    replay sessionEnvPlay.lib "INIT" ["e2e4", "e7e5"] =
      some "INIT;e2e4;e7e5" := by
  refine ⟨by decide, ?_⟩
  exact currentFen_replay_invariant sessionEnvPlay (fun _ => rfl) opsW "1"
    { id := "1", userId := "u", initialFen := "INIT",
      currentFen := "INIT;e2e4;e7e5", userColor := Color.white,
      createdAt := 0, moveHistory := ["e2e4", "e7e5"] } (by decide)

/-- C5: a successful `userMove` grows the history by exactly one token
(user move only) or exactly two (user move plus one engine reply); the
engine reply is recorded only when it is the engine's turn, the game is not
over, and the returned best move is non-empty and accepted by the rules
library; and when the engine's best move is rejected, the stored history
holds the user move only. -/
theorem userMove_history_growth (env : SessionEnv) (reg : Registry)
    (id u : String) (s : ChessSession)
    (hs : mapGet reg id = some s) :
    (∀ reg2 out, userMove env reg id u = (reg2, .ok out) →
       mapGet reg2 id = some out.session ∧
       ((out.session.moveHistory = s.moveHistory ++ [u] ∧
         out.engineMove = none) ∨
        (∃ fen1 fen2,
           env.lib.move s.currentFen (parseUci u) = some fen1 ∧
           (if env.lib.turn fen1 = PieceColor.w then Color.white
            else Color.black) ≠ s.userColor ∧
           env.lib.isGameOver fen1 = false ∧
           (env.analyze fen1).bestMove ≠ "" ∧
           env.lib.move fen1 (parseUci (env.analyze fen1).bestMove) =
             some fen2 ∧
           out.engineMove = some (env.analyze fen1).bestMove ∧
           out.session.moveHistory =
             s.moveHistory ++ [u, (env.analyze fen1).bestMove] ∧
           out.session.currentFen = fen2))) ∧
    (∀ fen1, env.lib.move s.currentFen (parseUci u) = some fen1 →
       env.lib.move fen1 (parseUci (env.analyze fen1).bestMove) = none →
       ∀ s2, mapGet (userMove env reg id u).1 id = some s2 →
         s2.moveHistory = s.moveHistory ++ [u]) := by
  have hg : getSession reg id = .ok s := by unfold getSession; rw [hs]
  constructor
  · intro reg2 out hout
    simp only [userMove, hg] at hout
    cases hm : env.lib.move s.currentFen (parseUci u) with
    | none => simp only [hm] at hout; exact absurd hout (by simp)
    | some fen1 =>
      simp only [hm] at hout
      by_cases hcond : (if env.lib.turn fen1 = PieceColor.w then Color.white
          else Color.black) ≠ s.userColor ∧ env.lib.isGameOver fen1 = false
      · rw [if_pos hcond] at hout
        by_cases hbm : (env.analyze fen1).bestMove ≠ ""
        · rw [if_pos hbm] at hout
          cases hm2 : env.lib.move fen1 (parseUci (env.analyze fen1).bestMove)
              with
          | none => simp only [hm2] at hout; exact absurd hout (by simp)
          | some fen2 =>
            simp only [hm2] at hout
            rw [Prod.ext_iff] at hout
            obtain ⟨h1, h2⟩ := hout
            injection h2 with h2
            subst h1
            subst h2
            refine ⟨mapGet_mapSet_self _ _ _, Or.inr
              ⟨fen1, fen2, rfl, hcond.1, hcond.2, hbm, hm2, rfl, ?_, rfl⟩⟩
            show (s.moveHistory ++ [u]) ++ [(env.analyze fen1).bestMove] =
              s.moveHistory ++ [u, (env.analyze fen1).bestMove]
            rw [List.append_assoc]
            rfl
        · rw [if_neg hbm] at hout
          rw [Prod.ext_iff] at hout
          obtain ⟨h1, h2⟩ := hout
          injection h2 with h2
          subst h1
          subst h2
          exact ⟨mapGet_mapSet_self _ _ _, Or.inl ⟨rfl, rfl⟩⟩
      · rw [if_neg hcond] at hout
        rw [Prod.ext_iff] at hout
        obtain ⟨h1, h2⟩ := hout
        injection h2 with h2
        subst h1
        subst h2
        exact ⟨mapGet_mapSet_self _ _ _, Or.inl ⟨rfl, rfl⟩⟩
  · intro fen1 hm hm2 s2 hmg
    simp only [userMove, hg, hm] at hmg
    by_cases hcond : (if env.lib.turn fen1 = PieceColor.w then Color.white
        else Color.black) ≠ s.userColor ∧ env.lib.isGameOver fen1 = false
    · rw [if_pos hcond] at hmg
      by_cases hbm : (env.analyze fen1).bestMove ≠ ""
      · rw [if_pos hbm] at hmg
        simp only [hm2] at hmg
        rw [mapGet_mapSet_self] at hmg
        cases hmg
        rfl
      · rw [if_neg hbm] at hmg
        simp only [] at hmg
        rw [mapGet_mapSet_self] at hmg
        cases hmg
        rfl
    · rw [if_neg hcond] at hmg
      simp only [] at hmg
      rw [mapGet_mapSet_self] at hmg
      cases hmg
      rfl

/-- Witness for C5: over `libPlay` the call records exactly the user move
and one engine reply; over `libHalf` (engine reply rejected) the stored
history holds the user move only. -/
theorem userMove_history_growth_witness :
    mapGet regW2 "1" = some outW.session ∧
    sHalf1.moveHistory = sessionW.moveHistory ++ ["e2e4"] := by
  constructor
  · exact ((userMove_history_growth sessionEnvPlay regW "1" "e2e4" sessionW
      rfl).1 regW2 outW (by rfl)).1
  · exact (userMove_history_growth sessionEnvHalf regW "1" "e2e4" sessionW
      rfl).2 "MID" rfl rfl sHalf1 (by decide)

theorem goReplay_length (lib : ChessLib) (ms : List VMove) :
    ∀ (fen : String) (fens : List String),
      goReplay lib fen ms = some fens → fens.length = ms.length := by
  induction ms with
  | nil =>
    intro fen fens h
    cases h
    rfl
  | cons m ms ih =>
    intro fen fens h
    unfold goReplay at h
    cases hm : lib.move fen m with
    | none => rw [hm] at h; cases h
    | some fen2 =>
      simp only [hm] at h
      cases hg : goReplay lib fen2 ms with
      | none => rw [hg] at h; cases h
      | some rest =>
        rw [hg] at h
        simp only [Option.map_some', Option.some.injEq] at h
        rw [← h, List.length_cons, ih fen2 rest hg, List.length_cons]

/-- C6: a transcript that parses into `n` history moves and replays cleanly
yields exactly `n + 1` positions whose element 0 is the starting position
(the `FEN` header override when a usable one is present, else the default
start); a transcript that fails to parse, or whose replay throws, yields
`[]` — never a partial prefix. -/
theorem buildFenSequenceFromPgn_spec (lib : ChessLib) (pgn : String) :
    (lib.loadPgn pgn = none → buildFenSequenceFromPgn lib pgn = []) ∧
    (∀ g, lib.loadPgn pgn = some g →
       (goReplay lib (pgnStart lib g) g.history = none →
          buildFenSequenceFromPgn lib pgn = []) ∧
       (∀ fens, goReplay lib (pgnStart lib g) g.history = some fens →
          buildFenSequenceFromPgn lib pgn = pgnStart lib g :: fens ∧
          (buildFenSequenceFromPgn lib pgn).length = g.history.length + 1 ∧
          (buildFenSequenceFromPgn lib pgn).head? =
            some (pgnStart lib g))) := by
  constructor
  · intro h
    simp only [buildFenSequenceFromPgn, h]
  · intro g hg
    constructor
    · intro h
      simp only [buildFenSequenceFromPgn, hg, h]
    · intro fens hf
      have he : buildFenSequenceFromPgn lib pgn = pgnStart lib g :: fens := by
        simp only [buildFenSequenceFromPgn, hg, hf]
      refine ⟨he, ?_, ?_⟩
      · rw [he, List.length_cons, goReplay_length lib g.history _ fens hf]
      · rw [he]
        rfl

/-- Witness for C6: the one-move transcript expands to two positions, and
an unparseable transcript expands to `[]`. -/
theorem buildFenSequenceFromPgn_spec_witness :
    libPgn.loadPgn "1. e4" = some { history := [mvRep], fenHeader := none } ∧
    buildFenSequenceFromPgn libPgn "1. e4" = ["START", "START;e2e4"] ∧
    (buildFenSequenceFromPgn libPgn "1. e4").length = 1 + 1 ∧
    buildFenSequenceFromPgn libPgn "not a pgn" = [] := by
  have h := ((buildFenSequenceFromPgn_spec libPgn "1. e4").2
    { history := [mvRep], fenHeader := none } rfl).2 ["START;e2e4"] rfl
  exact ⟨rfl, h.1, h.2.1,
    (buildFenSequenceFromPgn_spec libPgn "not a pgn").1 rfl⟩

theorem refreshTopGames_fetches_pos (env : TopEnv) (sl : Int) :
    1 ≤ (refreshTopGames env sl).fetches := by
  simp only [refreshTopGames]
  split
  · exact Nat.le_refl 1
  · split
    · exact Nat.le_succ 1
    · exact Nat.le_succ 1

/-- C7 counterexample: the cache file holds a fresh, well-formed entry
(age `0 < 6h`) whose games list is empty, yet the call performs external
fetches (`fetches = 2`), contradicting "issues no new external request". -/
theorem getTopGames_fresh_cache_counterexample :
    topEnvCex.cacheRead = some { cachedAt := 0, games := [] } ∧
    topEnvCex.now - 0 < TOP_GAMES_CACHE_TTL_MS ∧
    (getTopGames topEnvCex (some 15)).fetches = 2 := by
  exact ⟨rfl, by decide, by decide⟩

/-- C7 (amended): a `getTopGames` call while the cache holds an entry that
is fresh (`now - cachedAt < 6h`) *and non-empty* issues no external request
and returns the cached games truncated to the clamped limit; an entry that
is stale, or fresh but empty, or unreadable is treated as absent and
triggers a refresh (at least one fetch), whose result is persisted to the
cache before returning when the broadcast fetch meets the minimum count or,
failing that, the leaderboard fallback returns any games. -/
theorem getTopGames_cache_spec (env : TopEnv) (limit : Option Int) :
    (∀ e, env.cacheRead = some e →
       env.now - e.cachedAt < TOP_GAMES_CACHE_TTL_MS → e.games ≠ [] →
       getTopGames env limit =
         { games := e.games.take (safeLimitOf limit).toNat, fetches := 0,
           cacheWrites := [] }) ∧
    ((readTopGamesCache env).getD [] = [] →
       getTopGames env limit = refreshTopGames env (safeLimitOf limit) ∧
       1 ≤ (getTopGames env limit).fetches) ∧
    (∀ e, env.cacheRead = some e →
       TOP_GAMES_CACHE_TTL_MS ≤ env.now - e.cachedAt →
       readTopGamesCache env = none) ∧
    (min 10 (safeLimitOf limit) ≤ (env.broadcastGames.length : Int) →
       refreshTopGames env (safeLimitOf limit) =
         { games := env.broadcastGames.take (safeLimitOf limit).toNat,
           fetches := 1, cacheWrites := [env.broadcastGames] }) ∧
    ((env.broadcastGames.length : Int) < min 10 (safeLimitOf limit) →
       env.leaderboardGames ≠ [] →
       refreshTopGames env (safeLimitOf limit) =
         { games := env.leaderboardGames.take (safeLimitOf limit).toNat,
           fetches := 2, cacheWrites := [env.leaderboardGames] }) := by
  refine ⟨?_, ?_, ?_, ?_, ?_⟩
  · intro e he hf hne
    have hr : readTopGamesCache env = some e.games := by
      simp only [readTopGamesCache, he]
      rw [if_neg (not_le.mpr hf)]
    simp only [getTopGames, hr]
    rw [if_pos (List.length_pos.mpr hne)]
  · intro h
    have h1 : getTopGames env limit = refreshTopGames env (safeLimitOf limit) := by
      unfold getTopGames
      cases hr : readTopGamesCache env with
      | none => rfl
      | some cached =>
        rw [hr] at h
        simp only [Option.getD_some] at h
        simp only [hr, h, List.length_nil, lt_self_iff_false, if_false]
    exact ⟨h1, by rw [h1]; exact refreshTopGames_fetches_pos env _⟩
  · intro e he hage
    simp only [readTopGamesCache, he]
    rw [if_pos hage]
  · intro hb
    unfold refreshTopGames
    rw [if_pos hb]
  · intro hb hne
    unfold refreshTopGames
    rw [if_neg (not_le.mpr hb), if_pos (List.length_pos.mpr hne)]

/-- Witness for C7 (amended): a fresh non-empty entry is served with no
fetch; a fresh empty entry triggers a refresh. -/
theorem getTopGames_cache_spec_witness :
    getTopGames topEnvFresh (some 15) =
      { games := [gameW], fetches := 0, cacheWrites := [] } ∧
    getTopGames topEnvCex (some 15) =
      refreshTopGames topEnvCex (safeLimitOf (some 15)) ∧
    1 ≤ (getTopGames topEnvCex (some 15)).fetches := by
  have h1 := (getTopGames_cache_spec topEnvFresh (some 15)).1
    { cachedAt := 0, games := [gameW] } rfl (by decide) (by decide)
  have h2 := (getTopGames_cache_spec topEnvCex (some 15)).2.1 (by decide)
  exact ⟨h1, h2.1, h2.2⟩

/-- C10: a fresh cache entry whose games list is empty is treated exactly
as a cache miss — the call behaves as if the cache file were absent, and
performs a live fetch (broadcast first, then leaderboard fallback). -/
theorem getTopGames_empty_fresh_entry_is_miss (env : TopEnv)
    (limit : Option Int) (e : CacheEntry)
    (hread : env.cacheRead = some e)
    (hfresh : env.now - e.cachedAt < TOP_GAMES_CACHE_TTL_MS)
    (hempty : e.games = []) :
    getTopGames env limit = refreshTopGames env (safeLimitOf limit) ∧
    getTopGames env limit = getTopGames { env with cacheRead := none } limit ∧
    1 ≤ (getTopGames env limit).fetches := by
  have hr : readTopGamesCache env = some [] := by
    simp only [readTopGamesCache, hread]
    rw [if_neg (not_le.mpr hfresh), hempty]
  have h1 : getTopGames env limit = refreshTopGames env (safeLimitOf limit) := by
    simp only [getTopGames, hr]
    rw [if_neg (by simp)]
  refine ⟨h1, ?_, by rw [h1]; exact refreshTopGames_fetches_pos env _⟩
  rw [h1]
  rfl

/-- Witness for C10: the fresh-but-empty environment behaves as a miss. -/
theorem getTopGames_empty_fresh_entry_is_miss_witness :
    getTopGames topEnvCex (some 15) =
      getTopGames { topEnvCex with cacheRead := none } (some 15) ∧
    1 ≤ (getTopGames topEnvCex (some 15)).fetches := by
  have h := getTopGames_empty_fresh_entry_is_miss topEnvCex (some 15)
    { cachedAt := 0, games := [] } rfl (by decide) rfl
  exact ⟨h.2.1, h.2.2⟩

/-- C8: `getRecentGamesForUser` on an existing user clamps the limit to
`[1, 50]` (after defaulting a non-finite limit), returns `[]` without error
when no provider account is linked, and otherwise returns the flattened
union of the per-provider results sorted descending by `endTime` and
truncated to the clamped limit. -/
theorem getRecentGamesForUser_spec (env : IngestEnv) (userId : String)
    (limit : Option Int) (user : User)
    (hu : env.findUser userId = some user) :
    (1 ≤ safeLimitOf limit ∧ safeLimitOf limit ≤ 50) ∧
    (linkedTasks env user (safeLimitOf limit) = [] →
       getRecentGamesForUser env userId limit = .ok []) ∧
    (∃ sorted : List TrainingGame,
       sorted.Perm
         ((linkedTasks env user (safeLimitOf limit)).map recover).flatten ∧
       sorted.Sorted gameDesc ∧
       getRecentGamesForUser env userId limit =
         .ok (sorted.take (safeLimitOf limit).toNat)) := by
  refine ⟨⟨le_max_left 1 _, max_le (by norm_num) (min_le_left _ _)⟩, ?_, ?_⟩
  · intro h
    simp only [getRecentGamesForUser, hu, h]
    rfl
  · refine ⟨(((linkedTasks env user (safeLimitOf limit)).map
        recover).flatten).insertionSort gameDesc,
      List.perm_insertionSort _ _, List.sorted_insertionSort _ _, ?_⟩
    simp only [getRecentGamesForUser, hu]
    by_cases h : (linkedTasks env user (safeLimitOf limit)).length = 0
    · rw [if_pos h]
      rw [List.length_eq_zero] at h
      rw [h]
      simp
    · rw [if_neg h]

/-- Witness for C8: a user with no linked accounts gets `[]`; with two
linked accounts the union comes back sorted descending by `endTime` and
the limit is clamped. -/
theorem getRecentGamesForUser_spec_witness :
    getRecentGamesForUser ingestEnvNoAcc "z" none = .ok [] ∧
    getRecentGamesForUser ingestEnvW "u1" (some 10) =
      .ok [gameNew, gameOld] ∧
    (1 ≤ safeLimitOf (some 10) ∧ safeLimitOf (some 10) ≤ 50) :=
  ⟨(getRecentGamesForUser_spec ingestEnvNoAcc "z" none userNone rfl).2.1 rfl,
   by rfl,
   (getRecentGamesForUser_spec ingestEnvW "u1" (some 10) userW rfl).1⟩

theorem recover_ok_recover (r : Except String (List TrainingGame)) :
    recover (.ok (recover r)) = recover r := by
  cases r <;> rfl

/-- C9: a failed provider fetch is equivalent to that provider returning an
empty list — replacing every fetch outcome by its recovered (caught) value
does not change the result, so one provider's failure never affects the
other provider or aborts the call, which still succeeds whenever the user
exists. -/
theorem providerFailure_isolated (env : IngestEnv) (userId : String)
    (limit : Option Int) :
    getRecentGamesForUser env userId limit =
      getRecentGamesForUser
        { env with
            fetchLichess := fun u l => .ok (recover (env.fetchLichess u l)),
            fetchChessCom := fun u l => .ok (recover (env.fetchChessCom u l)) }
        userId limit ∧
    (∀ user, env.findUser userId = some user →
       isOkE (getRecentGamesForUser env userId limit) = true) := by
  constructor
  · cases hu : env.findUser userId with
    | none => simp only [getRecentGamesForUser, hu]
    | some user =>
      simp only [getRecentGamesForUser, hu]
      have hmap : (linkedTasks { env with
            fetchLichess := fun u l => .ok (recover (env.fetchLichess u l)),
            fetchChessCom := fun u l => .ok (recover (env.fetchChessCom u l)) }
          user (safeLimitOf limit)).map recover =
          (linkedTasks env user (safeLimitOf limit)).map recover := by
        unfold linkedTasks
        cases user.lichessUsername <;> cases user.chessComUsername <;>
          simp [recover_ok_recover] <;> split <;>
          simp [recover_ok_recover] <;> split <;> simp [recover_ok_recover]
      have hlen := congrArg List.length hmap
      rw [List.length_map, List.length_map] at hlen
      rw [hmap, hlen]
  · intro user hu
    simp only [getRecentGamesForUser, hu]
    by_cases h : (linkedTasks env user (safeLimitOf limit)).length = 0
    · rw [if_pos h]
      rfl
    · rw [if_neg h]
      rfl

/-- Witness for C9: with the lichess fetch rejecting, the call equals the
recovered-fetch version and still returns the chess.com games. -/
theorem providerFailure_isolated_witness :
    getRecentGamesForUser ingestEnvErr "u1" (some 10) =
      getRecentGamesForUser
        { ingestEnvErr with
            fetchLichess := fun u l =>
              .ok (recover (ingestEnvErr.fetchLichess u l)),
            fetchChessCom := fun u l =>
              .ok (recover (ingestEnvErr.fetchChessCom u l)) }
        "u1" (some 10) ∧
    isOkE (getRecentGamesForUser ingestEnvErr "u1" (some 10)) = true ∧
    getRecentGamesForUser ingestEnvErr "u1" (some 10) = .ok [gameNew] :=
  ⟨(providerFailure_isolated ingestEnvErr "u1" (some 10)).1,
   (providerFailure_isolated ingestEnvErr "u1" (some 10)).2 userW rfl,
   by rfl⟩

end Ctai
